import Mathlib

/-!
Verification of the appointment-scheduling assistant's core logic.

The Python source is shallowly embedded: strings are lists of ASCII code
points (`Str := List Nat`), pandas frames are lists of structures, and the
fallible store writes are modelled by explicit failure flags plus an effect
trace.  Floating-point similarity scores are modelled as rationals.
Unicode-specific behaviour of Python's `str.strip`, `str.lower`, and the
regex class `\s` is modelled on the ASCII range, which covers every literal
the program manipulates.
-/

/-- Strings are modelled as lists of character code points. -/
abbrev Str : Type := List Nat

/-- Builds a modelled string from a Lean string literal. -/
def chars (s : String) : Str := s.data.map Char.toNat

/-- Model of Python's whitespace class `\s` restricted to ASCII
(space, tab, newline, vertical tab, form feed, carriage return). -/
def isSpace (n : Nat) : Bool :=
  decide (n = 32 ∨ n = 9 ∨ n = 10 ∨ n = 11 ∨ n = 12 ∨ n = 13)

/-- Model of membership in Python's `string.punctuation`
(the 32 ASCII characters in the ranges 33-47, 58-64, 91-96, 123-126). -/
def isPunct (n : Nat) : Bool :=
  decide ((33 ≤ n ∧ n ≤ 47) ∨ (58 ≤ n ∧ n ≤ 64) ∨ (91 ≤ n ∧ n ≤ 96) ∨ (123 ≤ n ∧ n ≤ 126))

/-- Model of `str.lower` on one ASCII character. -/
def pyLower (n : Nat) : Nat := if 65 ≤ n ∧ n ≤ 90 then n + 32 else n

/-- Model of `str.upper` on one ASCII character. -/
def pyUpper (n : Nat) : Nat := if 97 ≤ n ∧ n ≤ 122 then n - 32 else n

/-- Model of `str.lower`. -/
def pyLowerStr (l : Str) : Str := l.map pyLower

/-- Model of `str.upper`. -/
def pyUpperStr (l : Str) : Str := l.map pyUpper

/-- Removes trailing whitespace (the right half of `str.strip`). -/
def rstrip : Str → Str
  | [] => []
  | c :: rest =>
    let r := rstrip rest
    if r = [] ∧ isSpace c then [] else c :: r

/-- Model of `str.strip`: drop leading then trailing whitespace. -/
def pyStrip (l : Str) : Str := rstrip (l.dropWhile isSpace)

/-- The honorific alternatives of the regex `^\b(dr|mr|mrs|ms)\.?\s+`,
in the alternation order the source writes them. -/
def titleAlts : List Str := [[100, 114], [109, 114], [109, 114, 115], [109, 115]]

/-- Case-insensitively consume `alt` from the front of `l`,
returning the remainder on success. -/
def ciDrop : Str → Str → Option Str
  | [], l => some l
  | _ :: _, [] => none
  | a :: as, c :: cs => if pyLower c = a then ciDrop as cs else none

/-- True when the string starts with a whitespace character. -/
def startsSpace : Str → Bool
  | [] => false
  | c :: _ => isSpace c

/-- Model of the regex tail `\.?\s+` after an honorific: an optional dot,
then at least one whitespace character, consumed greedily. -/
def afterTitle (l : Str) : Option Str :=
  match l with
  | 46 :: r => if startsSpace r then some (r.dropWhile isSpace) else none
  | r => if startsSpace r then some (r.dropWhile isSpace) else none

/-- Tries each honorific alternative in order, mirroring the
backtracking of `re.sub(r"^\b(dr|mr|mrs|ms)\.?\s+", "", n, IGNORECASE)`. -/
def tryTitle (alts : List Str) (l : Str) : Option Str :=
  match alts with
  | [] => none
  | a :: rest =>
    match (ciDrop a l).bind afterTitle with
    | some r => some r
    | none => tryTitle rest l

/-- Model of the anchored title-stripping substitution in `normalize_name`:
at most one leading honorific (with optional dot and trailing whitespace)
is removed. -/
def stripTitle (l : Str) : Str :=
  match tryTitle titleAlts l with
  | some r => r
  | none => l

/-- Model of `n.translate(PUNCT_TABLE)`: remove all punctuation characters. -/
def depunct (l : Str) : Str := l.filter (fun c => !isPunct c)

/-- Worker for whitespace collapsing; the flag records whether the
previous character belonged to a whitespace run already replaced. -/
def collapseAux : Bool → Str → Str
  | _, [] => []
  | prevSp, c :: rest =>
    if isSpace c then
      if prevSp then collapseAux true rest
      else 32 :: collapseAux true rest
    else c :: collapseAux false rest

/-- Model of `re.sub(r"\s+", " ", n)`: every maximal whitespace run
becomes a single space. -/
def collapse (l : Str) : Str := collapseAux false l

/-- The last character, if any, is not whitespace. -/
def noTrail : Str → Bool
  | [] => true
  | [c] => !isSpace c
  | _ :: rest => noTrail rest

/-- No two adjacent characters are both whitespace. -/
def noDouble : Str → Bool
  | c :: d :: rest => (!(isSpace c && isSpace d)) && noDouble (d :: rest)
  | _ => true

/-- Model of `normalize_name` from `patient_lookup_agent.py`:
strip, drop one leading honorific, remove punctuation, collapse
whitespace, strip again, lower-case. -/
def normalize_name (l : Str) : Str :=
  if l = [] then []
  else pyLowerStr (pyStrip (collapse (depunct (stripTitle (pyStrip l)))))

/-- Is the code point an ASCII digit. -/
def isDigit (n : Nat) : Bool := decide (48 ≤ n ∧ n ≤ 57)

/-- Numeric value of a digit code point. -/
def digitVal (n : Nat) : Nat := n - 48

/-- A calendar date, the model of `datetime.date`. -/
structure Date where
  year : Nat
  month : Nat
  day : Nat
deriving DecidableEq

/-- Gregorian leap-year test, as `datetime` implements it. -/
def isLeap (y : Nat) : Bool := decide (y % 4 = 0 ∧ (y % 100 ≠ 0 ∨ y % 400 = 0))

/-- Days in a month, as `datetime` validates them. -/
def daysInMonth (y m : Nat) : Nat :=
  if m = 2 then (if isLeap y then 29 else 28)
  else if m = 4 ∨ m = 6 ∨ m = 9 ∨ m = 11 then 30
  else 31

/-- Model of the `datetime(year, month, day)` constructor's validation:
`MINYEAR = 1`, and the day must fit the month. -/
def mkDate (y m d : Nat) : Option Date :=
  if 1 ≤ y ∧ d ≤ daysInMonth y m then some ⟨y, m, d⟩ else none

/-- Model of `strptime`'s `%d` field: one or two digits with value 1-31. -/
def parseDayField (s : Str) : Option Nat :=
  match s with
  | [a] => if isDigit a ∧ 1 ≤ digitVal a then some (digitVal a) else none
  | [a, b] =>
    if isDigit a ∧ isDigit b ∧ 1 ≤ 10 * digitVal a + digitVal b ∧ 10 * digitVal a + digitVal b ≤ 31
    then some (10 * digitVal a + digitVal b) else none
  | _ => none

/-- Model of `strptime`'s `%m` field: one or two digits with value 1-12. -/
def parseMonthField (s : Str) : Option Nat :=
  match s with
  | [a] => if isDigit a ∧ 1 ≤ digitVal a then some (digitVal a) else none
  | [a, b] =>
    if isDigit a ∧ isDigit b ∧ 1 ≤ 10 * digitVal a + digitVal b ∧ 10 * digitVal a + digitVal b ≤ 12
    then some (10 * digitVal a + digitVal b) else none
  | _ => none

/-- Model of `strptime`'s `%Y` field: exactly four digits. -/
def parseY4 (s : Str) : Option Nat :=
  match s with
  | [a, b, c, d] =>
    if isDigit a ∧ isDigit b ∧ isDigit c ∧ isDigit d
    then some (1000 * digitVal a + 100 * digitVal b + 10 * digitVal c + digitVal d) else none
  | _ => none

/-- Model of `strptime`'s `%y` field: exactly two digits, mapped by
CPython's pivot rule (0-68 to the 2000s, 69-99 to the 1900s). -/
def parseY2 (s : Str) : Option Nat :=
  match s with
  | [a, b] =>
    if isDigit a ∧ isDigit b
    then
      let v := 10 * digitVal a + digitVal b
      some (if v ≤ 68 then 2000 + v else 1900 + v)
    else none
  | _ => none

/-- Splits a string on the dash character, keeping empty fields,
like matching a dash-separated format string. -/
def splitDash (l : Str) : List Str :=
  match l with
  | [] => [[]]
  | c :: rest =>
    let r := splitDash rest
    if c = 45 then [] :: r
    else match r with
      | [] => [[c]]
      | p :: ps => (c :: p) :: ps

/-- Model of `strptime(s, "%d-%m-%Y")` followed by `datetime` validation. -/
def parseDMY (s : Str) : Option Date :=
  match splitDash s with
  | [p1, p2, p3] =>
    (parseDayField p1).bind fun d =>
      (parseMonthField p2).bind fun m =>
        (parseY4 p3).bind fun y => mkDate y m d
  | _ => none

/-- Model of `strptime(s, "%Y-%m-%d")` followed by `datetime` validation. -/
def parseYMD (s : Str) : Option Date :=
  match splitDash s with
  | [p1, p2, p3] =>
    (parseY4 p1).bind fun y =>
      (parseMonthField p2).bind fun m =>
        (parseDayField p3).bind fun d => mkDate y m d
  | _ => none

/-- Model of `strptime(s, "%d-%m-%y")` followed by `datetime` validation. -/
def parseDMy2 (s : Str) : Option Date :=
  match splitDash s with
  | [p1, p2, p3] =>
    (parseDayField p1).bind fun d =>
      (parseMonthField p2).bind fun m =>
        (parseY2 p3).bind fun y => mkDate y m d
  | _ => none

/-- Model of the two-digit-year remap inside `_parse_dob_any`: when the
parsed year is below 100, shift it into the 1900s or 2000s via
`dt.replace(year=...)`, which re-validates the date. -/
def remapYear (dt : Date) : Option Date :=
  if dt.year < 100 then
    mkDate (dt.year + (if 20 ≤ dt.year then 1900 else 2000)) dt.month dt.day
  else some dt

/-- Tries each format in order; a failure anywhere inside the `try`
block (parsing or the remap's `replace`) falls through to the next
format, as the source's `except Exception: continue` does. -/
def tryFormats (s : Str) : List (Str → Option Date) → Option Date
  | [] => none
  | f :: fs =>
    match (f s).bind remapYear with
    | some dt => some dt
    | none => tryFormats s fs

/-- Model of `_parse_dob_any`: strip, replace slashes with dashes, then
try the formats `%d-%m-%Y`, `%Y-%m-%d`, `%d-%m-%y` in order. -/
def parse_dob_any (dob : Str) : Option Date :=
  let s := (pyStrip dob).map (fun c => if c = 47 then 45 else c)
  if s = [] then none
  else tryFormats s [parseDMY, parseYMD, parseDMy2]

/-- Model of `_dob_equal`: both sides must parse, and the calendar
dates must coincide. -/
def dob_equal (a b : Str) : Bool :=
  match parse_dob_any a, parse_dob_any b with
  | some da, some db => decide (da = db)
  | _, _ => false

/-- One row of the patient store, with the alias-resolved name and dob
columns; the remaining columns play no role in classification. -/
structure PatientRow where
  name : Str
  dob : Str
deriving DecidableEq

/-- The dictionary `lookup_patient` returns.  The displayed rounding of
the fuzzy score to three decimals is omitted; scores are exact rationals. -/
structure LookupResult where
  status : Str
  match_score : Option ℚ
  patient : Option PatientRow
  duplicates : Nat
  reason : Str
deriving DecidableEq

/-- The exact pass of `lookup_patient`: rows whose date of birth equals
the candidate's and whose normalized name equals the normalized
candidate name, in store order. -/
def exactMatches (rows : List PatientRow) (name_in dob : Str) : List PatientRow :=
  rows.filter (fun r => dob_equal dob r.dob && decide (normalize_name r.name = name_in))

/-- The fuzzy loop of `lookup_patient`: walk the store keeping the first
row whose similarity strictly exceeds the best seen so far (initially
`0.0` with no row), considering only rows with matching date of birth. -/
def fuzzyBestAux (sim : Str → Str → ℚ) (name_in dob : Str) :
    List PatientRow → Option PatientRow × ℚ → Option PatientRow × ℚ
  | [], acc => acc
  | r :: rs, (best, bestSc) =>
    if dob_equal dob r.dob then
      let score := sim name_in r.name
      if bestSc < score then fuzzyBestAux sim name_in dob rs (some r, score)
      else fuzzyBestAux sim name_in dob rs (best, bestSc)
    else fuzzyBestAux sim name_in dob rs (best, bestSc)

/-- The fuzzy pass started from `best_idx = None`, `best_score = 0.0`. -/
def fuzzyBest (sim : Str → Str → ℚ) (name_in dob : Str) (rows : List PatientRow) :
    Option PatientRow × ℚ :=
  fuzzyBestAux sim name_in dob rows (none, 0)

/-- Model of `lookup_patient` (after column resolution, which the claims
do not exercise): exact pass first, then the fuzzy pass against the
threshold; the name-similarity function is a parameter standing for
`SequenceMatcher.ratio` over token-sorted normalized names. -/
def lookup_patient (rows : List PatientRow) (name dob : Str)
    (sim : Str → Str → ℚ) (fuzzy_threshold : ℚ) : LookupResult :=
  let name_in := normalize_name name
  if name_in = [] ∨ parse_dob_any dob = none then
    ⟨chars (r"new"), none, none, 0, chars (r"Insufficient info for lookup (need name + valid dob)")⟩
  else
    match exactMatches rows name_in dob with
    | r :: rest =>
      ⟨chars (r"returning"), some 1, some r, (r :: rest).length - 1, chars (r"Exact name+dob match.")⟩
    | [] =>
      match fuzzyBest sim name_in dob rows with
      | (some r, bestScore) =>
        if fuzzy_threshold ≤ bestScore then
          ⟨chars (r"returning"), some bestScore, some r, 0, chars (r"Fuzzy name match with exact dob.")⟩
        else ⟨chars (r"new"), none, none, 0, chars (r"No match found for name+dob")⟩
      | (none, _) =>
        ⟨chars (r"new"), none, none, 0, chars (r"No match found for name+dob")⟩

/-- The highest similarity score among store rows with matching date of
birth (zero when there is none): the quantity the specification's
threshold rule speaks about. -/
def bestDobScore (sim : Str → Str → ℚ) (name_in dob : Str) : List PatientRow → ℚ
  | [] => 0
  | r :: rs =>
    if dob_equal dob r.dob then max (sim name_in r.name) (bestDobScore sim name_in dob rs)
    else bestDobScore sim name_in dob rs

/-- One row of the provider schedule, with alias-resolved columns; the
date column is stored already parsed, `none` standing for the `NaT`
that `pd.to_datetime(..., errors="coerce")` produces on bad cells. -/
structure SRow where
  doctor : Str
  date : Option Date
  time : Str
  status : Str
deriving DecidableEq

/-- The `scheduled_slot` dictionary `schedule_appointment` stores,
as a tagged variant keyed on its `status` field. -/
inductive SlotOutcome where
  | error (message : Str)
  | unavailable (message : Str)
  | confirmed (doctor date time location : Str)
deriving DecidableEq

/-- Whether the outcome carries `status = "confirmed"`. -/
def SlotOutcome.isConfirmed : SlotOutcome → Bool
  | .confirmed _ _ _ _ => true
  | _ => false

/-- Pairs every list element with its position, starting at `n`. -/
def withIdxFrom (n : Nat) : List SRow → List (Nat × SRow)
  | [] => []
  | r :: rs => (n, r) :: withIdxFrom (n + 1) rs

/-- Pairs every schedule row with its frame index, the model of a
pandas frame's index column. -/
def withIdx (l : List SRow) : List (Nat × SRow) := withIdxFrom 0 l

/-- Replaces the status of the row at position `i` (out-of-range
positions leave the schedule unchanged). -/
def setStatus : List SRow → Nat → Str → List SRow
  | [], _, _ => []
  | r :: rs, 0, st => { r with status := st } :: rs
  | r :: rs, n + 1, st => r :: setStatus rs n st

/-- The status written on reservation: `f"Booked by {patient_name}"`. -/
def bookedBy (patient_name : Str) : Str := chars (r"Booked by ") ++ patient_name

/-- Does the time label contain the given token, as Python's `in`
substring test. -/
def strStartsWith : Str → Str → Bool
  | _, [] => true
  | [], _ :: _ => false
  | c :: s, p :: ps => decide (c = p) && strStartsWith s ps

/-- Substring containment, the model of Python's `tok in label`. -/
def strContains : Str → Str → Bool
  | s, pat =>
    match s with
    | [] => strStartsWith [] pat
    | _ :: rest => strStartsWith s pat || strContains rest pat

/-- Morning marker of `_find_consecutive_slots`: the label contains the
token `"10"` or `"11"`. -/
def morningTok (t : Str) : Bool := strContains t (chars (r"10")) || strContains t (chars (r"11"))

/-- Afternoon marker of `_find_consecutive_slots`: the label contains
one of the tokens `"2"`, `"3"`, `"4"`, `"5"`. -/
def afternoonTok (t : Str) : Bool :=
  strContains t (chars (r"2")) || strContains t (chars (r"3")) ||
  strContains t (chars (r"4")) || strContains t (chars (r"5"))

/-- The same-session test of `_find_consecutive_slots`: both labels
carry morning markers, or both carry afternoon markers. -/
def sameSession (t1 t2 : Str) : Bool :=
  (morningTok t1 && morningTok t2) || (afternoonTok t1 && afternoonTok t2)

/-- Row-status availability test, `status.lower() == "available"`. -/
def rowAvailable (r : SRow) : Bool := decide (pyLowerStr r.status = chars (r"available"))

/-- Model of `_find_consecutive_slots` over the filtered, index-tagged
rows: the first adjacent pair that is fully available and in the same
session, scanning from the start. -/
def findConsec : List (Nat × SRow) → Option ((Nat × SRow) × (Nat × SRow))
  | p1 :: p2 :: rest =>
    if rowAvailable p1.2 && rowAvailable p2.2 && sameSession p1.2.time p2.2.time
    then some (p1, p2)
    else findConsec (p2 :: rest)
  | _ => none

/-- The doctor/date row filter of `schedule_appointment`:
case-insensitive provider match and exact calendar-date match. -/
def rowMatches (doctor : Str) (dt : Date) (r : SRow) : Bool :=
  decide (pyLowerStr r.doctor = pyLowerStr doctor) && decide (r.date = some dt)

/-- The filtered frame `date_match`, with original frame indices. -/
def dateMatch (doctor : Str) (dt : Date) (sched : List SRow) : List (Nat × SRow) :=
  (withIdx sched).filter (fun p => rowMatches doctor dt p.2)

/-- Model of `schedule_appointment` from `appointment_scheduler_agent.py`
(after schedule-column resolution): validates the date, filters by
provider and date, then allocates one slot for a returning patient or an
adjacent same-session pair for a new patient.  Returns the outcome
together with the written-back schedule. -/
def schedule_appointment (classification doctor patient_name location preferred_date : Str)
    (sched : List SRow) : SlotOutcome × List SRow :=
  match parseDMY preferred_date with
  | none => (.error (chars (r"Invalid date format. Use DD-MM-YYYY.")), sched)
  | some dt =>
    match dateMatch doctor dt sched with
    | [] =>
      (.error (doctor ++ chars (r" not available on ") ++ preferred_date ++ chars (r".")), sched)
    | q :: qs =>
      if classification = chars (r"returning") then
        match (q :: qs).filter (fun p => rowAvailable p.2) with
        | [] =>
          (.unavailable (chars (r"No slots available for ") ++ doctor ++ chars (r" on ") ++
            preferred_date ++ chars (r".")), sched)
        | p :: _ =>
          (.confirmed doctor preferred_date p.2.time location,
            setStatus sched p.1 (bookedBy patient_name))
      else if classification = chars (r"new") then
        match findConsec (q :: qs) with
        | some (p1, p2) =>
          (.confirmed doctor preferred_date (p1.2.time ++ chars (r" & ") ++ p2.2.time) location,
            setStatus (setStatus sched p1.1 (bookedBy patient_name)) p2.1 (bookedBy patient_name))
        | none =>
          (.unavailable (chars (r"No 1 hour slots available for ") ++ doctor ++ chars (r" on ") ++
            preferred_date ++ chars (r".")), sched)
      else (.error (chars (r"Unknown patient status")), sched)

/-- The `scheduled_slot` dictionary as the confirmation agent reads it. -/
structure Slot where
  status : Str
  doctor : Str
  date : Str
  time : Str
  location : Str
deriving DecidableEq

/-- The `extracted_info` dictionary fields the confirmation agent reads. -/
structure Info where
  name : Str
  dob : Str
  location : Str
deriving DecidableEq

/-- The `lookup_result["patient"]` dictionary of a returning patient. -/
structure LookupPatient where
  name : Str
  dob : Str
  location : Str
  insurance_carrier : Str
  member_id : Str
  group : Str
deriving DecidableEq

/-- A row of the patient store as `confirmation_agent` writes it. -/
structure PatientRecord where
  name : Str
  dob : Str
  location : Str
  insurance_carrier : Str
  member_id : Str
  group_number : Str
  email : Str
  phone : Str
deriving DecidableEq

/-- A row of the booking ledger (`patient_status.xlsx`). -/
structure LedgerRow where
  patient_name : Str
  patient_dob : Str
  doctor_name : Str
  doa : Str
  time_slot : Str
  email : Str
  phone_number : Str
  status : Str
  form_filled : Str
  cancellation_reason : Str
deriving DecidableEq

/-- The conversation state fields `confirmation_agent` consumes. -/
structure ConvState where
  scheduled_slot : Option Slot
  status : Str
  extracted_info : Info
  insurance_carrier : Str
  member_id : Str
  group_number : Str
  lookup_patient : LookupPatient
deriving DecidableEq

/-- The three persisted stores the confirmation agent touches. -/
structure Stores where
  patients : List PatientRecord
  schedule : List SRow
  ledger : List LedgerRow
deriving DecidableEq

/-- Observable side effects of the confirmation agent, in program order.
`patientWrite`/`ledgerWrite` record attempted store writes and whether
they succeeded; the SMS effects stand for the Twilio collaborator. -/
inductive Effect where
  | patientWrite (ok : Bool)
  | ledgerWrite (ok : Bool)
  | smsConfirm
  | smsCancel
  | scheduleRevert
  | patientRemove
deriving DecidableEq

/-- The confirmation agent's return dictionary plus the final stores and
the trace of side effects it performed. -/
structure FinalizeResult where
  confirmation_status : Str
  patient_record : Option PatientRecord
  stores : Stores
  trace : List Effect
deriving DecidableEq

/-- Splits a string on the ampersand character, as
`str(time).split('&')`. -/
def splitAmp (l : Str) : List Str :=
  match l with
  | [] => [[]]
  | c :: rest =>
    let r := splitAmp rest
    if c = 38 then [] :: r
    else match r with
      | [] => [[c]]
      | p :: ps => (c :: p) :: ps

/-- Model of `_revert_doctor_schedule`: rows matching the reserved
slot's doctor (case-insensitive), date, and any of its `&`-separated
time labels are reset to `Available`; any parse failure leaves the
schedule untouched, as the blanket `except` does. -/
def revertDoctorSchedule (state : ConvState) (sched : List SRow) : List SRow :=
  match state.scheduled_slot with
  | none => sched
  | some slot =>
    match parseDMY slot.date with
    | none => sched
    | some dt =>
      let times := (splitAmp slot.time).map pyStrip
      sched.map fun r =>
        if decide (pyLowerStr (pyStrip r.doctor) = pyLowerStr slot.doctor) &&
            decide (r.date = some dt) && times.contains r.time
        then { r with status := chars (r"Available") } else r

/-- Removes the first list element satisfying the predicate. -/
def removeFirst (p : PatientRecord → Bool) : List PatientRecord → List PatientRecord
  | [] => []
  | x :: xs => if p x then xs else x :: removeFirst p xs

/-- Model of `_remove_new_patient_record`: drop the most recent store
row whose name (case-insensitive, stripped) and DOB (stripped) match
the just-added record. -/
def removeNewPatientRecord (record : PatientRecord) (patients : List PatientRecord) :
    List PatientRecord :=
  (removeFirst
    (fun p => decide (pyLowerStr (pyStrip p.name) = pyLowerStr record.name) &&
      decide (pyStrip p.dob = record.dob))
    patients.reverse).reverse

/-- Model of `_finalize_confirmation`: normalizes the decision, then
either appends the booking-ledger row and notifies (CONFIRM) — a ledger
write failure is only printed — or reverts the reservation (CANCEL), or
reports `invalid_decision`.  `ledgerWriteFails` models the ledger append
raising. -/
def finalize_confirmation (state : ConvState) (record : PatientRecord) (decision : Str)
    (stores : Stores) (ledgerWriteFails : Bool) : FinalizeResult :=
  let d := pyUpperStr (pyStrip decision)
  if d = chars (r"CONFIRM") then
    let slot := (state.scheduled_slot).getD ⟨[], [], [], [], []⟩
    let row : LedgerRow :=
      ⟨record.name, record.dob, slot.doctor, slot.date, slot.time,
        record.email, record.phone, chars (r"Confirmed"), chars (r"No"), []⟩
    let ledger' := if ledgerWriteFails then stores.ledger else stores.ledger ++ [row]
    ⟨chars (r"appointment_confirmed"), some record, { stores with ledger := ledger' },
      [.ledgerWrite (!ledgerWriteFails), .smsConfirm]⟩
  else if d = chars (r"CANCEL") then
    let sched' := revertDoctorSchedule state stores.schedule
    let patients' :=
      if state.status = chars (r"new") then removeNewPatientRecord record stores.patients
      else stores.patients
    ⟨chars (r"appointment_cancelled"), some record,
      { stores with schedule := sched', patients := patients' },
      [.scheduleRevert] ++
        (if state.status = chars (r"new") then [.patientRemove] else []) ++ [.smsCancel]⟩
  else ⟨chars (r"invalid_decision"), some record, stores, []⟩

/-- The patient record `confirmation_agent` builds for a new patient
from the collected info, insurance fields, and stripped contact. -/
def newPatientRecord (state : ConvState) (email phone : Str) : PatientRecord :=
  ⟨state.extracted_info.name, state.extracted_info.dob, state.extracted_info.location,
    state.insurance_carrier, state.member_id, state.group_number,
    pyStrip email, pyStrip phone⟩

/-- Model of `confirmation_agent`: guard on a confirmed reservation,
then for a new patient build and append the patient record (a CSV write
failure aborts with `error_writing_to_csv`), for a returning patient
build the transaction-scoped record, and hand off to the finalizer. -/
def confirmation_agent (state : ConvState) (email phone decision : Str)
    (stores : Stores) (csvWriteFails ledgerWriteFails : Bool) : FinalizeResult :=
  match state.scheduled_slot with
  | none => ⟨chars (r"skipped_no_booking"), none, stores, []⟩
  | some slot =>
    if slot.status ≠ chars (r"confirmed") then
      ⟨chars (r"skipped_no_booking"), none, stores, []⟩
    else if state.status = chars (r"new") then
      let record := newPatientRecord state email phone
      if csvWriteFails then
        ⟨chars (r"error_writing_to_csv"), none, stores, [.patientWrite false]⟩
      else
        let stores' := { stores with patients := stores.patients ++ [record] }
        let res := finalize_confirmation state record decision stores' ledgerWriteFails
        { res with trace := .patientWrite true :: res.trace }
    else if state.status = chars (r"returning") then
      let lp := state.lookup_patient
      let record : PatientRecord :=
        ⟨lp.name, lp.dob, lp.location, lp.insurance_carrier, lp.member_id, lp.group,
          pyStrip email, pyStrip phone⟩
      finalize_confirmation state record decision stores ledgerWriteFails
    else ⟨chars (r"error_unknown_patient_status"), none, stores, []⟩

/-- The orchestrator's stages (`st.session_state.stage`). -/
inductive Stage where
  | GREETING
  | COLLECTING_INFO
  | COLLECTING_INSURANCE_CARRIER
  | COLLECTING_INSURANCE_MEMBER_ID
  | COLLECTING_INSURANCE_GROUP_NUMBER
  | COLLECTING_DATE
  | COLLECTING_EMAIL
  | COLLECTING_PHONE
  | COLLECTING_DECISION
  | DONE
deriving DecidableEq

/-- Model of the `COLLECTING_DECISION` handler in `app.py`: trim and
upper-case the turn's input; on the literal tokens advance to `DONE`
and invoke the confirmation agent with the normalized decision
(returned as `some`), otherwise re-prompt and stay on the stage. -/
def decision_stage_step (input : Str) : Stage × Option Str :=
  let decision := pyUpperStr (pyStrip input)
  if decision = chars (r"CONFIRM") ∨ decision = chars (r"CANCEL") then
    (Stage.DONE, some decision)
  else (Stage.COLLECTING_DECISION, none)

/-- Fixture: a confirmed reservation used by concrete instantiations. -/
def slotFix : Slot :=
  ⟨chars (r"confirmed"), chars (r"Dr. X"), chars (r"08-09-2025"),
    chars (r"10:00-10:30"), chars (r"City")⟩

/-- Fixture: a matched returning-patient store record. -/
def lookupFix : LookupPatient :=
  ⟨chars (r"Bob R"), chars (r"01-01-1990"), chars (r"City"),
    chars (r"Acme"), chars (r"M1"), chars (r"G1")⟩

/-- Fixture: a returning-patient session holding a confirmed reservation. -/
def stFixR : ConvState :=
  ⟨some slotFix, chars (r"returning"),
    ⟨chars (r"Bob R"), chars (r"01-01-1990"), chars (r"City")⟩, [], [], [], lookupFix⟩

/-- Fixture: a new-patient session holding a confirmed reservation. -/
def stFixN : ConvState :=
  ⟨some slotFix, chars (r"new"),
    ⟨chars (r"Alice Q"), chars (r"02-02-2000"), chars (r"Town")⟩,
    chars (r"Acme"), chars (r"M2"), chars (r"G2"), lookupFix⟩

/-- Fixture: empty persisted stores. -/
def storesFix : Stores := ⟨[], [], []⟩

/-- Fixture: the provider used by concrete schedule rows. -/
def drFix : Str := chars (r"Dr. X")

/-- Fixture: the calendar date of the concrete schedule rows. -/
def dateFix : Date := ⟨2025, 9, 8⟩

/-- Fixture: a free morning slot. -/
def rowMorning1 : SRow := ⟨drFix, some dateFix, chars (r"10:00-10:30"), chars (r"Available")⟩

/-- Fixture: the adjacent free morning slot. -/
def rowMorning2 : SRow := ⟨drFix, some dateFix, chars (r"10:30-11:00"), chars (r"Available")⟩

/-- Fixture: a free afternoon slot. -/
def rowAfternoon : SRow := ⟨drFix, some dateFix, chars (r"2:00-2:30"), chars (r"Available")⟩

/-- Fixture: a constant similarity function for concrete lookups. -/
def simFix : Str → Str → ℚ := fun _ _ => 9 / 10

/-- Fixture: a one-row patient store whose name is close to, but not
exactly, the candidate used in concrete lookups. -/
def rowsFix : List PatientRow := [⟨chars (r"Ann Smith"), chars (r"01-01-1990")⟩]

/-- Claim C3 (code evidence): the two-digit-year day-month-year form is
accepted, but `strptime`'s `%y` pivot (already a full year) makes the
source's own below-20/20-and-above remap dead code: `"12-03-19"` parses
to 2019 as claimed, while `"12-03-50"` parses to 2050, not 1950. -/
theorem C3_two_digit_year_parse :
    parse_dob_any (chars (r"12-03-19")) = some ⟨2019, 3, 12⟩ ∧
    parse_dob_any (chars (r"12-03-50")) = some ⟨2050, 3, 12⟩ ∧
    parse_dob_any (chars (r"12-03-69")) = some ⟨1969, 3, 12⟩ := by
  refine ⟨by decide, by decide, by decide⟩

/-- Claim C5 (code evidence): the substring session markers let a
new-patient allocation reserve a morning slot together with an
afternoon slot (the label `10:00-10:30` contains the afternoon token
`"3"`), so a pair straddling morning and afternoon is reserved; the
claimed morning-pair scenario itself behaves as stated, joining the two
labels with `" & "`. -/
theorem C5_straddling_pair_reserved :
    (schedule_appointment (chars (r"new")) drFix (chars (r"Alice")) (chars (r"City"))
        (chars (r"08-09-2025")) [rowMorning1, rowAfternoon] =
      (.confirmed drFix (chars (r"08-09-2025")) (chars (r"10:00-10:30 & 2:00-2:30")) (chars (r"City")),
        [{ rowMorning1 with status := bookedBy (chars (r"Alice")) },
         { rowAfternoon with status := bookedBy (chars (r"Alice")) }])) ∧
    morningTok rowMorning1.time = true ∧ afternoonTok rowAfternoon.time = true ∧
    morningTok rowAfternoon.time = false ∧
    (schedule_appointment (chars (r"new")) drFix (chars (r"Alice")) (chars (r"City"))
        (chars (r"08-09-2025")) [rowMorning1, rowMorning2]).1 =
      .confirmed drFix (chars (r"08-09-2025")) (chars (r"10:00-10:30 & 10:30-11:00")) (chars (r"City")) := by
  refine ⟨by decide, by decide, by decide, by decide, by decide⟩

/-- Claim C8: the `COLLECTING_DECISION` handler advances to `DONE` and
invokes the finalizer exactly when the trimmed, upper-cased input is
`CONFIRM` or `CANCEL`; any other input stays on the stage with no
finalizer call, and the token `"confirm "`, also in mixed case, is
accepted as `CONFIRM`. -/
theorem C8_decision_stage (input : Str) :
    ((decision_stage_step input).1 = Stage.DONE ↔
      (pyUpperStr (pyStrip input) = chars (r"CONFIRM") ∨
        pyUpperStr (pyStrip input) = chars (r"CANCEL"))) ∧
    (decision_stage_step input = (Stage.DONE, some (pyUpperStr (pyStrip input))) ∨
      decision_stage_step input = (Stage.COLLECTING_DECISION, none)) ∧
    decision_stage_step (chars (r"confirm ")) = (Stage.DONE, some (chars (r"CONFIRM"))) ∧
    decision_stage_step (chars (r"conFirm ")) = (Stage.DONE, some (chars (r"CONFIRM"))) := by
  refine ⟨?_, ?_, by decide, by decide⟩ <;>
    · unfold decision_stage_step
      by_cases h : pyUpperStr (pyStrip input) = chars (r"CONFIRM") ∨
          pyUpperStr (pyStrip input) = chars (r"CANCEL")
      · simp [h]
      · simp [h]

/-- Claim C1 (counterexample): a returning-patient session with a
confirmed reservation, decision `CONFIRM`, and a failing ledger write
still yields `appointment_confirmed` — the ledger row was not written,
yet the result is not a persistence-error status. -/
theorem C1_counterexample :
    (confirmation_agent stFixR (chars (r"a@b.co")) (chars (r"123")) (chars (r"CONFIRM"))
        storesFix false true).confirmation_status = chars (r"appointment_confirmed") ∧
    (confirmation_agent stFixR (chars (r"a@b.co")) (chars (r"123")) (chars (r"CONFIRM"))
        storesFix false true).stores.ledger = storesFix.ledger := by
  refine ⟨by decide, by decide⟩

/-- Claim C1 (amended): on a CONFIRM decision for a session holding a
confirmed reservation, the finalizer returns `appointment_confirmed`
even when the booking-ledger append raises (the failure is only
logged), and the trace shows the ledger write attempted before the
confirmation notification fires. -/
theorem C1_ledger_failure_still_confirmed (state : ConvState) (email phone decision : Str)
    (stores : Stores) (ledgerWriteFails : Bool) (slot : Slot)
    (hslot : state.scheduled_slot = some slot)
    (hconf : slot.status = chars (r"confirmed"))
    (hcls : state.status = chars (r"new") ∨ state.status = chars (r"returning"))
    (hdec : pyUpperStr (pyStrip decision) = chars (r"CONFIRM")) :
    (confirmation_agent state email phone decision stores false ledgerWriteFails).confirmation_status
        = chars (r"appointment_confirmed") ∧
    (confirmation_agent state email phone decision stores false ledgerWriteFails).trace
        = (if state.status = chars (r"new") then [Effect.patientWrite true] else []) ++
          [Effect.ledgerWrite (!ledgerWriteFails), Effect.smsConfirm] := by
  have hnr : chars (r"new") ≠ chars (r"returning") := by decide
  have hrn : chars (r"returning") ≠ chars (r"new") := by decide
  unfold confirmation_agent
  rw [hslot]
  rcases hcls with hnew | hret
  · simp [finalize_confirmation, hconf, hnew, hdec, hnr]
  · simp [finalize_confirmation, hconf, hret, hdec, hrn]

/-- Claim C1 (witness): the amended theorem applied to the concrete
returning-patient fixture with a failing ledger write. -/
theorem C1_witness :
    (stFixR.scheduled_slot = some slotFix ∧ slotFix.status = chars (r"confirmed") ∧
      (stFixR.status = chars (r"new") ∨ stFixR.status = chars (r"returning")) ∧
      pyUpperStr (pyStrip (chars (r"CONFIRM"))) = chars (r"CONFIRM")) ∧
    ((confirmation_agent stFixR (chars (r"a@b.co")) (chars (r"123")) (chars (r"CONFIRM"))
        storesFix false true).confirmation_status = chars (r"appointment_confirmed") ∧
      (confirmation_agent stFixR (chars (r"a@b.co")) (chars (r"123")) (chars (r"CONFIRM"))
        storesFix false true).trace
        = (if stFixR.status = chars (r"new") then [Effect.patientWrite true] else []) ++
          [Effect.ledgerWrite (!true), Effect.smsConfirm]) :=
  ⟨⟨by decide, by decide, by decide, by decide⟩,
    C1_ledger_failure_still_confirmed stFixR (chars (r"a@b.co")) (chars (r"123"))
      (chars (r"CONFIRM")) storesFix true slotFix (by decide) (by decide) (by decide) (by decide)⟩

/-- Claim C2 (counterexample): an invalid decision on a new-patient
session with a confirmed reservation returns `invalid_decision`, yet
the patient store is changed — the new patient record was appended
before the decision was examined and remains. -/
theorem C2_counterexample :
    (confirmation_agent stFixN (chars (r"a@b.co")) (chars (r"123")) (chars (r"MAYBE"))
        storesFix false false).confirmation_status = chars (r"invalid_decision") ∧
    (confirmation_agent stFixN (chars (r"a@b.co")) (chars (r"123")) (chars (r"MAYBE"))
        storesFix false false).stores.patients ≠ storesFix.patients := by
  refine ⟨by decide, by decide⟩

/-- Claim C2 (amended): for a session holding a confirmed reservation
and classified new or returning, a decision that is neither CONFIRM nor
CANCEL (after trim and upper-case) yields `invalid_decision`; the
schedule store and the booking ledger are unchanged, the patient store
is unchanged for a returning session, but for a new-patient session the
just-appended patient record remains in the store. -/
theorem C2_invalid_decision_effects (state : ConvState) (email phone decision : Str)
    (stores : Stores) (ledgerWriteFails : Bool) (slot : Slot)
    (hslot : state.scheduled_slot = some slot)
    (hconf : slot.status = chars (r"confirmed"))
    (hcls : state.status = chars (r"new") ∨ state.status = chars (r"returning"))
    (hd1 : pyUpperStr (pyStrip decision) ≠ chars (r"CONFIRM"))
    (hd2 : pyUpperStr (pyStrip decision) ≠ chars (r"CANCEL")) :
    (confirmation_agent state email phone decision stores false ledgerWriteFails).confirmation_status
        = chars (r"invalid_decision") ∧
    (confirmation_agent state email phone decision stores false ledgerWriteFails).stores.schedule
        = stores.schedule ∧
    (confirmation_agent state email phone decision stores false ledgerWriteFails).stores.ledger
        = stores.ledger ∧
    (state.status = chars (r"returning") →
      (confirmation_agent state email phone decision stores false ledgerWriteFails).stores.patients
        = stores.patients) ∧
    (state.status = chars (r"new") →
      (confirmation_agent state email phone decision stores false ledgerWriteFails).stores.patients
        = stores.patients ++ [newPatientRecord state email phone]) := by
  have hnr : chars (r"new") ≠ chars (r"returning") := by decide
  have hrn : chars (r"returning") ≠ chars (r"new") := by decide
  unfold confirmation_agent
  rw [hslot]
  rcases hcls with hnew | hret
  · simp [finalize_confirmation, hconf, hnew, hd1, hd2, hnr]
  · simp [finalize_confirmation, hconf, hret, hd1, hd2, hrn]

/-- Claim C2 (witness): the amended theorem applied to the concrete
new-patient fixture with the decision `MAYBE`. -/
theorem C2_witness :
    (stFixN.scheduled_slot = some slotFix ∧ slotFix.status = chars (r"confirmed") ∧
      (stFixN.status = chars (r"new") ∨ stFixN.status = chars (r"returning")) ∧
      pyUpperStr (pyStrip (chars (r"MAYBE"))) ≠ chars (r"CONFIRM") ∧
      pyUpperStr (pyStrip (chars (r"MAYBE"))) ≠ chars (r"CANCEL")) ∧
    ((confirmation_agent stFixN (chars (r"a@b.co")) (chars (r"123")) (chars (r"MAYBE"))
        storesFix false false).confirmation_status = chars (r"invalid_decision") ∧
      (confirmation_agent stFixN (chars (r"a@b.co")) (chars (r"123")) (chars (r"MAYBE"))
        storesFix false false).stores.schedule = storesFix.schedule ∧
      (confirmation_agent stFixN (chars (r"a@b.co")) (chars (r"123")) (chars (r"MAYBE"))
        storesFix false false).stores.ledger = storesFix.ledger ∧
      (stFixN.status = chars (r"returning") →
        (confirmation_agent stFixN (chars (r"a@b.co")) (chars (r"123")) (chars (r"MAYBE"))
          storesFix false false).stores.patients = storesFix.patients) ∧
      (stFixN.status = chars (r"new") →
        (confirmation_agent stFixN (chars (r"a@b.co")) (chars (r"123")) (chars (r"MAYBE"))
          storesFix false false).stores.patients
          = storesFix.patients ++ [newPatientRecord stFixN (chars (r"a@b.co")) (chars (r"123"))])) :=
  ⟨⟨by decide, by decide, by decide, by decide, by decide⟩,
    C2_invalid_decision_effects stFixN (chars (r"a@b.co")) (chars (r"123")) (chars (r"MAYBE"))
      storesFix false slotFix (by decide) (by decide) (by decide) (by decide) (by decide)⟩

/-- Claim C9: with a well-formed date and at least one row matching the
provider and date, a classification that is neither `returning` nor
`new` yields the `Unknown patient status` error and returns the
schedule unchanged. -/
theorem C9_unknown_status (classification doctor patient_name location preferred_date : Str)
    (sched : List SRow) (dt : Date)
    (hdt : parseDMY preferred_date = some dt)
    (hmatch : dateMatch doctor dt sched ≠ [])
    (hret : classification ≠ chars (r"returning"))
    (hnew : classification ≠ chars (r"new")) :
    schedule_appointment classification doctor patient_name location preferred_date sched =
      (.error (chars (r"Unknown patient status")), sched) := by
  unfold schedule_appointment
  rw [hdt]
  cases hq : dateMatch doctor dt sched with
  | nil => exact absurd hq hmatch
  | cons q qs => simp [hq, hret, hnew]

/-- Claim C9 (witness): the theorem applied to a concrete session with
classification `unknown` over a one-row matching schedule. -/
theorem C9_witness :
    (parseDMY (chars (r"08-09-2025")) = some dateFix ∧
      dateMatch drFix dateFix [rowMorning1] ≠ [] ∧
      chars (r"unknown") ≠ chars (r"returning") ∧ chars (r"unknown") ≠ chars (r"new")) ∧
    schedule_appointment (chars (r"unknown")) drFix (chars (r"Alice")) (chars (r"City"))
        (chars (r"08-09-2025")) [rowMorning1] =
      (.error (chars (r"Unknown patient status")), [rowMorning1]) :=
  ⟨⟨by decide, by decide, by decide, by decide⟩,
    C9_unknown_status (chars (r"unknown")) drFix (chars (r"Alice")) (chars (r"City"))
      (chars (r"08-09-2025")) [rowMorning1] dateFix (by decide) (by decide) (by decide) (by decide)⟩

/-- Claim C10: whenever the exact pass finds nothing — in particular in
every fuzzy classification — the reported duplicate count is zero, so a
nonzero duplicate count can only come from the exact pass. -/
theorem C10_fuzzy_duplicates_zero (rows : List PatientRow) (name dob : Str)
    (sim : Str → Str → ℚ) (threshold : ℚ)
    (hnoexact : exactMatches rows (normalize_name name) dob = []) :
    (lookup_patient rows name dob sim threshold).duplicates = 0 := by
  unfold lookup_patient
  by_cases h : normalize_name name = [] ∨ parse_dob_any dob = none
  · simp [h]
  · rw [if_neg h, hnoexact]
    cases hf : fuzzyBest sim (normalize_name name) dob rows with
    | mk best score =>
      cases best with
      | none => simp
      | some r =>
        by_cases ht : threshold ≤ score
        · simp [ht]
        · simp [ht]

/-- Claim C10 (witness): the theorem applied to a concrete lookup whose
fuzzy pass classifies the candidate as returning. -/
theorem C10_witness :
    exactMatches rowsFix (normalize_name (chars (r"Anna Smith"))) (chars (r"01-01-1990")) = [] ∧
    (lookup_patient rowsFix (chars (r"Anna Smith")) (chars (r"01-01-1990")) simFix
        (87 / 100)).duplicates = 0 :=
  ⟨by decide,
    C10_fuzzy_duplicates_zero rowsFix (chars (r"Anna Smith")) (chars (r"01-01-1990")) simFix
      (87 / 100) (by decide)⟩

/-- The best dob-filtered similarity score is nonnegative when the
similarity function is. -/
theorem bestDobScore_nonneg (sim : Str → Str → ℚ) (name_in dob : Str)
    (hsim : ∀ a b, 0 ≤ sim a b) :
    ∀ rows : List PatientRow, 0 ≤ bestDobScore sim name_in dob rows
  | [] => le_refl 0
  | r :: rs => by
    unfold bestDobScore
    by_cases hd : dob_equal dob r.dob
    · simp [hd]
      exact Or.inl (hsim name_in r.name)
    · simp [hd]
      exact bestDobScore_nonneg sim name_in dob hsim rs

/-- The running best score of the fuzzy loop equals the maximum of its
seed and the best dob-filtered score of the remaining rows. -/
theorem fuzzyBestAux_snd (sim : Str → Str → ℚ) (name_in dob : Str)
    (hsim : ∀ a b, 0 ≤ sim a b) :
    ∀ (rows : List PatientRow) (best : Option PatientRow) (bs : ℚ), 0 ≤ bs →
      (fuzzyBestAux sim name_in dob rows (best, bs)).2 =
        max bs (bestDobScore sim name_in dob rows)
  | [], best, bs, hbs => by
    simp [fuzzyBestAux, bestDobScore, max_eq_left hbs]
  | r :: rs, best, bs, hbs => by
    unfold fuzzyBestAux bestDobScore
    by_cases hd : dob_equal dob r.dob
    · simp only [hd, if_true]
      by_cases hlt : bs < sim name_in r.name
      · rw [if_pos hlt]
        rw [fuzzyBestAux_snd sim name_in dob hsim rs (some r) _ (hsim name_in r.name)]
        rw [max_eq_right (le_trans hlt.le (le_max_left _ _))]
      · rw [if_neg hlt]
        rw [fuzzyBestAux_snd sim name_in dob hsim rs best bs hbs]
        rw [← max_assoc, max_eq_left (le_of_not_lt hlt)]
    · simp only [hd, if_false]
      exact fuzzyBestAux_snd sim name_in dob hsim rs best bs hbs

/-- Once the fuzzy loop holds a candidate row it never drops it. -/
theorem fuzzyBestAux_isSome (sim : Str → Str → ℚ) (name_in dob : Str) :
    ∀ (rows : List PatientRow) (r : PatientRow) (bs : ℚ),
      ((fuzzyBestAux sim name_in dob rows (some r, bs)).1).isSome = true
  | [], _, _ => rfl
  | q :: rs, r, bs => by
    unfold fuzzyBestAux
    by_cases hd : dob_equal dob q.dob
    · simp only [hd, if_true]
      by_cases hlt : bs < sim name_in q.name
      · rw [if_pos hlt]; exact fuzzyBestAux_isSome sim name_in dob rs q _
      · rw [if_neg hlt]; exact fuzzyBestAux_isSome sim name_in dob rs r bs
    · simp only [hd, if_false]
      exact fuzzyBestAux_isSome sim name_in dob rs r bs

/-- If the fuzzy loop ends with no candidate, its score never moved. -/
theorem fuzzyBestAux_none (sim : Str → Str → ℚ) (name_in dob : Str) :
    ∀ (rows : List PatientRow) (bs : ℚ),
      (fuzzyBestAux sim name_in dob rows (none, bs)).1 = none →
      (fuzzyBestAux sim name_in dob rows (none, bs)).2 = bs
  | [], _, _ => rfl
  | q :: rs, bs, h => by
    unfold fuzzyBestAux at h ⊢
    by_cases hd : dob_equal dob q.dob
    · simp only [hd, if_true] at h ⊢
      by_cases hlt : bs < sim name_in q.name
      · rw [if_pos hlt] at h
        have := fuzzyBestAux_isSome sim name_in dob rs q (sim name_in q.name)
        rw [h] at this
        exact absurd this (by simp)
      · rw [if_neg hlt] at h ⊢
        exact fuzzyBestAux_none sim name_in dob rs bs h
    · simp only [hd, if_false] at h ⊢
      exact fuzzyBestAux_none sim name_in dob rs bs h

/-- Claim C6: when the fuzzy pass runs (usable inputs, no exact hit)
with a positive threshold and a nonnegative similarity, the lookup
classifies `returning` exactly when the highest similarity score among
rows with matching date of birth meets or exceeds the threshold; a best
score exactly at the threshold is accepted, any lower score yields
`new`. -/
theorem C6_fuzzy_threshold_boundary (rows : List PatientRow) (name dob : Str)
    (sim : Str → Str → ℚ) (threshold : ℚ)
    (hsim : ∀ a b, 0 ≤ sim a b) (hth : 0 < threshold)
    (hname : normalize_name name ≠ []) (hdob : parse_dob_any dob ≠ none)
    (hnoexact : exactMatches rows (normalize_name name) dob = []) :
    (lookup_patient rows name dob sim threshold).status = chars (r"returning") ↔
      threshold ≤ bestDobScore sim (normalize_name name) dob rows := by
  have hsnd : (fuzzyBest sim (normalize_name name) dob rows).2
      = bestDobScore sim (normalize_name name) dob rows := by
    rw [fuzzyBest, fuzzyBestAux_snd sim (normalize_name name) dob hsim rows none 0 le_rfl,
      max_eq_right (bestDobScore_nonneg sim (normalize_name name) dob hsim rows)]
  unfold lookup_patient
  rw [if_neg (by simp [hname, hdob]), hnoexact]
  cases hf : fuzzyBest sim (normalize_name name) dob rows with
  | mk best score =>
    rw [hf] at hsnd
    have hs : score = bestDobScore sim (normalize_name name) dob rows := hsnd
    have hnr : chars (r"new") ≠ chars (r"returning") := by decide
    cases best with
    | some r =>
      by_cases ht : threshold ≤ score
      · simp only [ht, if_true]
        exact iff_of_true trivial (hs ▸ ht)
      · simp only [ht, if_false]
        exact iff_of_false hnr (fun h => ht (hs.symm ▸ h))
    | none =>
      have h1 : (fuzzyBest sim (normalize_name name) dob rows).1 = none := by rw [hf]
      rw [fuzzyBest] at h1
      have h0 := fuzzyBestAux_none sim (normalize_name name) dob rows 0 h1
      rw [fuzzyBest] at hf
      rw [hf] at h0
      have hsc : score = 0 := h0
      refine iff_of_false hnr (fun h => ?_)
      rw [← hs, hsc] at h
      exact absurd (lt_of_lt_of_le hth h) (lt_irrefl 0)

/-- Claim C6 (witness): the theorem applied to a concrete store whose
only row shares the candidate's date of birth, with the default
threshold `0.87` and a constant similarity of `0.9`. -/
theorem C6_witness :
    ((0 : ℚ) < 87 / 100 ∧ normalize_name (chars (r"Anna Smith")) ≠ [] ∧
      parse_dob_any (chars (r"01-01-1990")) ≠ none ∧
      exactMatches rowsFix (normalize_name (chars (r"Anna Smith"))) (chars (r"01-01-1990")) = []) ∧
    ((lookup_patient rowsFix (chars (r"Anna Smith")) (chars (r"01-01-1990")) simFix
        (87 / 100)).status = chars (r"returning") ↔
      (87 : ℚ) / 100 ≤ bestDobScore simFix (normalize_name (chars (r"Anna Smith")))
        (chars (r"01-01-1990")) rowsFix) :=
  ⟨⟨by norm_num, by decide, by decide, by decide⟩,
    C6_fuzzy_threshold_boundary rowsFix (chars (r"Anna Smith")) (chars (r"01-01-1990")) simFix
      (87 / 100) (fun a b => by norm_num [simFix]) (by norm_num) (by decide) (by decide) (by decide)⟩

/-- An index-tagged element locates its row in the underlying list. -/
theorem mem_withIdxFrom : ∀ (l : List SRow) (n : Nat) (p : Nat × SRow),
    p ∈ withIdxFrom n l → n ≤ p.1 ∧ l.get? (p.1 - n) = some p.2
  | [], _, _, h => absurd h (List.not_mem_nil _)
  | r :: rs, n, p, h => by
    rw [withIdxFrom] at h
    rcases List.mem_cons.mp h with h1 | h1
    · subst h1
      exact ⟨le_refl n, by simp⟩
    · obtain ⟨hle, hget⟩ := mem_withIdxFrom rs (n + 1) p h1
      refine ⟨by omega, ?_⟩
      have hidx : p.1 - n = (p.1 - (n + 1)) + 1 := by omega
      rw [hidx, List.get?_cons_succ]
      exact hget

/-- Index tags grow strictly along the tagged list. -/
theorem withIdxFrom_pairwise : ∀ (l : List SRow) (n : Nat),
    List.Pairwise (fun a b : Nat × SRow => a.1 < b.1) (withIdxFrom n l)
  | [], _ => List.Pairwise.nil
  | r :: rs, n => by
    rw [withIdxFrom]
    refine List.Pairwise.cons ?_ (withIdxFrom_pairwise rs (n + 1))
    intro p hp
    have := (mem_withIdxFrom rs (n + 1) p hp).1
    simpa using by omega

/-- A row of the filtered frame is the underlying schedule row at its
tagged index. -/
theorem mem_dateMatch (doctor : Str) (dt : Date) (sched : List SRow) (p : Nat × SRow)
    (h : p ∈ dateMatch doctor dt sched) : sched.get? p.1 = some p.2 := by
  have h1 := (List.mem_filter.mp h).1
  have h2 := mem_withIdxFrom sched 0 p h1
  simpa using h2.2

/-- The filtered frame keeps strictly increasing indices. -/
theorem dateMatch_pairwise (doctor : Str) (dt : Date) (sched : List SRow) :
    List.Pairwise (fun a b : Nat × SRow => a.1 < b.1) (dateMatch doctor dt sched) :=
  List.Pairwise.sublist (List.filter_sublist _) (withIdxFrom_pairwise sched 0)

/-- What a successful consecutive-slot search guarantees: the returned
rows are adjacent in the scanned list, both available, and in the same
session. -/
theorem findConsec_sound : ∀ (l : List (Nat × SRow)) (p q : Nat × SRow),
    findConsec l = some (p, q) →
    (∃ k, l.get? k = some p ∧ l.get? (k + 1) = some q) ∧
    rowAvailable p.2 = true ∧ rowAvailable q.2 = true ∧ sameSession p.2.time q.2.time = true
  | [], _, _, h => by simp [findConsec] at h
  | [_], _, _, h => by simp [findConsec] at h
  | p1 :: p2 :: rest, p, q, h => by
    rw [findConsec] at h
    by_cases hc : (rowAvailable p1.2 && rowAvailable p2.2 && sameSession p1.2.time p2.2.time) = true
    · rw [if_pos hc] at h
      injection h with h1
      injection h1 with hp hq
      subst hp
      subst hq
      simp only [Bool.and_eq_true] at hc
      exact ⟨⟨0, rfl, rfl⟩, hc.1.1, hc.1.2, hc.2⟩
    · rw [if_neg hc] at h
      obtain ⟨⟨k, hk1, hk2⟩, h1, h2, h3⟩ := findConsec_sound (p2 :: rest) p q h
      exact ⟨⟨k + 1, by simpa using hk1, by simpa using hk2⟩, h1, h2, h3⟩

/-- Positions adjacent in an index-increasing list carry increasing
indices. -/
theorem pairwise_get_lt : ∀ (l : List (Nat × SRow)) (k : Nat) (p q : Nat × SRow),
    List.Pairwise (fun a b : Nat × SRow => a.1 < b.1) l →
    l.get? k = some p → l.get? (k + 1) = some q → p.1 < q.1
  | [], _, _, _, _, h1, _ => by simp at h1
  | x :: xs, 0, p, q, hp, h1, h2 => by
    have hx : x = p := by simpa using h1
    subst hx
    have hq : q ∈ xs := List.get?_mem (by simpa using h2)
    exact (List.pairwise_cons.mp hp).1 q hq
  | x :: xs, k + 1, p, q, hp, h1, h2 =>
    pairwise_get_lt xs k p q (List.pairwise_cons.mp hp).2 (by simpa using h1)
      (by simpa using h2)

/-- Writing a status rewrites exactly the addressed row. -/
theorem setStatus_get_self : ∀ (l : List SRow) (i : Nat) (st : Str) (r : SRow),
    l.get? i = some r → (setStatus l i st).get? i = some { r with status := st }
  | [], i, st, r, h => by simp at h
  | x :: xs, 0, st, r, h => by
    have hx : x = r := by simpa using h
    subst hx
    rfl
  | x :: xs, i + 1, st, r, h => by
    rw [setStatus, List.get?_cons_succ]
    exact setStatus_get_self xs i st r (by simpa using h)

/-- Writing a status leaves every other row unchanged. -/
theorem setStatus_get_other : ∀ (l : List SRow) (i k : Nat) (st : Str), k ≠ i →
    (setStatus l i st).get? k = l.get? k
  | [], _, _, _, _ => by rw [setStatus]
  | x :: xs, 0, k, st, hk => by
    cases k with
    | zero => exact absurd rfl hk
    | succ k => rw [setStatus, List.get?_cons_succ, List.get?_cons_succ]
  | x :: xs, i + 1, k, st, hk => by
    cases k with
    | zero => rw [setStatus]; rfl
    | succ k =>
      rw [setStatus, List.get?_cons_succ, List.get?_cons_succ]
      exact setStatus_get_other xs i k st (by omega)

/-- An available row's status cannot already be the reservation marker,
whatever the patient name: lower-casing the marker starts with `b`,
while `available` starts with `a`. -/
theorem rowAvailable_ne_booked (r : SRow) (p : Str) (h : rowAvailable r = true) :
    r.status ≠ bookedBy p := by
  intro he
  have h1 : pyLowerStr r.status = chars (r"available") := by
    simpa [rowAvailable] using h
  rw [he] at h1
  have hb : bookedBy p = 66 :: ([111, 111, 107, 101, 100, 32, 98, 121, 32] ++ p) := by
    rw [bookedBy]
    rfl
  rw [hb, pyLowerStr, List.map_cons] at h1
  have hav : chars (r"available") = [97, 118, 97, 105, 108, 97, 98, 108, 101] := by decide
  rw [hav] at h1
  injection h1 with h2 h3
  exact absurd h2 (by decide)

/-- Claim C4: every successful Slot Allocator call reserves only rows
whose status was `Available` (never an already-`Booked` row); a
returning-patient call changes exactly one row, a new-patient call
changes exactly two rows that are adjacent in the filtered frame and in
the same session, and every other schedule row keeps its prior status. -/
theorem C4_successful_allocation_frame
    (classification doctor patient_name location preferred_date : Str) (sched : List SRow)
    (hok : (schedule_appointment classification doctor patient_name location preferred_date
      sched).1.isConfirmed = true) :
    ∃ dt, parseDMY preferred_date = some dt ∧
      ((classification = chars (r"returning") ∧
        ∃ i ri, sched.get? i = some ri ∧ rowAvailable ri = true ∧
          ri.status ≠ bookedBy patient_name ∧
          (schedule_appointment classification doctor patient_name location preferred_date
            sched).2 = setStatus sched i (bookedBy patient_name) ∧
          (setStatus sched i (bookedBy patient_name)).get? i =
            some { ri with status := bookedBy patient_name } ∧
          ∀ k, k ≠ i → (setStatus sched i (bookedBy patient_name)).get? k = sched.get? k) ∨
      (classification = chars (r"new") ∧
        ∃ i j ri rj, i ≠ j ∧ sched.get? i = some ri ∧ sched.get? j = some rj ∧
          rowAvailable ri = true ∧ rowAvailable rj = true ∧
          sameSession ri.time rj.time = true ∧
          ri.status ≠ bookedBy patient_name ∧ rj.status ≠ bookedBy patient_name ∧
          (∃ k, (dateMatch doctor dt sched).get? k = some (i, ri) ∧
            (dateMatch doctor dt sched).get? (k + 1) = some (j, rj)) ∧
          (schedule_appointment classification doctor patient_name location preferred_date
            sched).2 =
            setStatus (setStatus sched i (bookedBy patient_name)) j (bookedBy patient_name) ∧
          (setStatus (setStatus sched i (bookedBy patient_name)) j
            (bookedBy patient_name)).get? i =
            some { ri with status := bookedBy patient_name } ∧
          (setStatus (setStatus sched i (bookedBy patient_name)) j
            (bookedBy patient_name)).get? j =
            some { rj with status := bookedBy patient_name } ∧
          ∀ k, k ≠ i → k ≠ j →
            (setStatus (setStatus sched i (bookedBy patient_name)) j
              (bookedBy patient_name)).get? k = sched.get? k)) := by
  cases hdt : parseDMY preferred_date with
  | none =>
    unfold schedule_appointment at hok
    simp only [hdt] at hok
    simp [SlotOutcome.isConfirmed] at hok
  | some dt =>
    refine ⟨dt, rfl, ?_⟩
    unfold schedule_appointment at hok ⊢
    simp only [hdt] at hok ⊢
    cases hq : dateMatch doctor dt sched with
    | nil =>
      simp only [hq] at hok
      simp [SlotOutcome.isConfirmed] at hok
    | cons q qs =>
      simp only [hq] at hok ⊢
      by_cases hcr : classification = chars (r"returning")
      · rw [if_pos hcr] at hok ⊢
        left
        refine ⟨hcr, ?_⟩
        cases hfa : (q :: qs).filter (fun p => rowAvailable p.2) with
        | nil =>
          simp only [hfa] at hok
          simp [SlotOutcome.isConfirmed] at hok
        | cons p ps =>
          simp only [hfa] at hok ⊢
          have hpmem : p ∈ (q :: qs).filter (fun p => rowAvailable p.2) := by
            rw [hfa]
            exact List.mem_cons_self p ps
          have hpf := List.mem_filter.mp hpmem
          have hget : sched.get? p.1 = some p.2 :=
            mem_dateMatch doctor dt sched p (hq.symm ▸ hpf.1)
          exact ⟨p.1, p.2, hget, hpf.2, rowAvailable_ne_booked p.2 patient_name hpf.2, rfl,
            setStatus_get_self sched p.1 (bookedBy patient_name) p.2 hget,
            fun k hk => setStatus_get_other sched p.1 k (bookedBy patient_name) hk⟩
      · by_cases hcn : classification = chars (r"new")
        · rw [if_neg hcr, if_pos hcn] at hok ⊢
          right
          refine ⟨hcn, ?_⟩
          cases hfc : findConsec (q :: qs) with
          | none =>
            simp only [hfc] at hok
            simp [SlotOutcome.isConfirmed] at hok
          | some pq =>
            obtain ⟨p1, p2⟩ := pq
            simp only [hfc] at hok ⊢
            obtain ⟨⟨k, hk1, hk2⟩, hav1, hav2, hss⟩ := findConsec_sound (q :: qs) p1 p2 hfc
            have hpw : List.Pairwise (fun a b : Nat × SRow => a.1 < b.1) (q :: qs) :=
              hq ▸ dateMatch_pairwise doctor dt sched
            have hlt : p1.1 < p2.1 := pairwise_get_lt (q :: qs) k p1 p2 hpw hk1 hk2
            have hg1 : sched.get? p1.1 = some p1.2 :=
              mem_dateMatch doctor dt sched p1 (hq.symm ▸ List.get?_mem hk1)
            have hg2 : sched.get? p2.1 = some p2.2 :=
              mem_dateMatch doctor dt sched p2 (hq.symm ▸ List.get?_mem hk2)
            refine ⟨p1.1, p2.1, p1.2, p2.2, by omega, hg1, hg2, hav1, hav2, hss,
              rowAvailable_ne_booked p1.2 patient_name hav1,
              rowAvailable_ne_booked p2.2 patient_name hav2,
              ⟨k, hk1, hk2⟩, rfl, ?_, ?_, ?_⟩
            · exact (setStatus_get_other (setStatus sched p1.1 (bookedBy patient_name)) p2.1
                p1.1 (bookedBy patient_name) (by omega)).trans
                (setStatus_get_self sched p1.1 (bookedBy patient_name) p1.2 hg1)
            · exact setStatus_get_self (setStatus sched p1.1 (bookedBy patient_name)) p2.1
                (bookedBy patient_name) p2.2
                ((setStatus_get_other sched p1.1 p2.1 (bookedBy patient_name)
                  (by omega)).trans hg2)
            · intro m hm1 hm2
              exact (setStatus_get_other (setStatus sched p1.1 (bookedBy patient_name)) p2.1 m
                (bookedBy patient_name) hm2).trans
                (setStatus_get_other sched p1.1 m (bookedBy patient_name) hm1)
        · rw [if_neg hcr, if_neg hcn] at hok
          simp [SlotOutcome.isConfirmed] at hok

/-- Claim C4 (witness): the frame theorem applied to a concrete
successful returning-patient allocation over a one-row schedule. -/
theorem C4_witness :
    (schedule_appointment (chars (r"returning")) drFix (chars (r"Alice")) (chars (r"City"))
      (chars (r"08-09-2025")) [rowMorning1]).1.isConfirmed = true ∧
    (∃ dt, parseDMY (chars (r"08-09-2025")) = some dt ∧
      ((chars (r"returning") = chars (r"returning") ∧
        ∃ i ri, [rowMorning1].get? i = some ri ∧ rowAvailable ri = true ∧
          ri.status ≠ bookedBy (chars (r"Alice")) ∧
          (schedule_appointment (chars (r"returning")) drFix (chars (r"Alice"))
            (chars (r"City")) (chars (r"08-09-2025")) [rowMorning1]).2 =
            setStatus [rowMorning1] i (bookedBy (chars (r"Alice"))) ∧
          (setStatus [rowMorning1] i (bookedBy (chars (r"Alice")))).get? i =
            some { ri with status := bookedBy (chars (r"Alice")) } ∧
          ∀ k, k ≠ i → (setStatus [rowMorning1] i (bookedBy (chars (r"Alice")))).get? k =
            [rowMorning1].get? k) ∨
      (chars (r"returning") = chars (r"new") ∧
        ∃ i j ri rj, i ≠ j ∧ [rowMorning1].get? i = some ri ∧ [rowMorning1].get? j = some rj ∧
          rowAvailable ri = true ∧ rowAvailable rj = true ∧
          sameSession ri.time rj.time = true ∧
          ri.status ≠ bookedBy (chars (r"Alice")) ∧ rj.status ≠ bookedBy (chars (r"Alice")) ∧
          (∃ k, (dateMatch drFix dt [rowMorning1]).get? k = some (i, ri) ∧
            (dateMatch drFix dt [rowMorning1]).get? (k + 1) = some (j, rj)) ∧
          (schedule_appointment (chars (r"returning")) drFix (chars (r"Alice"))
            (chars (r"City")) (chars (r"08-09-2025")) [rowMorning1]).2 =
            setStatus (setStatus [rowMorning1] i (bookedBy (chars (r"Alice")))) j
              (bookedBy (chars (r"Alice"))) ∧
          (setStatus (setStatus [rowMorning1] i (bookedBy (chars (r"Alice")))) j
            (bookedBy (chars (r"Alice")))).get? i =
            some { ri with status := bookedBy (chars (r"Alice")) } ∧
          (setStatus (setStatus [rowMorning1] i (bookedBy (chars (r"Alice")))) j
            (bookedBy (chars (r"Alice")))).get? j =
            some { rj with status := bookedBy (chars (r"Alice")) } ∧
          ∀ k, k ≠ i → k ≠ j →
            (setStatus (setStatus [rowMorning1] i (bookedBy (chars (r"Alice")))) j
              (bookedBy (chars (r"Alice")))).get? k = [rowMorning1].get? k))) :=
  ⟨by decide,
    C4_successful_allocation_frame (chars (r"returning")) drFix (chars (r"Alice"))
      (chars (r"City")) (chars (r"08-09-2025")) [rowMorning1] (by decide)⟩

/-- Lower-casing never changes whether a character is whitespace. -/
theorem isSpace_pyLower (c : Nat) : isSpace (pyLower c) = isSpace c := by
  by_cases h : 65 ≤ c ∧ c ≤ 90
  · rw [pyLower, if_pos h]
    have h1 : isSpace (c + 32) = false := by simp [isSpace]; omega
    have h2 : isSpace c = false := by simp [isSpace]; omega
    rw [h1, h2]
  · rw [pyLower, if_neg h]

/-- ASCII lower-casing is idempotent. -/
theorem pyLower_idem (c : Nat) : pyLower (pyLower c) = pyLower c := by
  unfold pyLower
  by_cases h : 65 ≤ c ∧ c ≤ 90
  · rw [if_pos h, if_neg (by omega)]
  · rw [if_neg h, if_neg h]

/-- Lower-casing a non-punctuation character never yields punctuation. -/
theorem isPunct_pyLower (c : Nat) (h : isPunct c = false) : isPunct (pyLower c) = false := by
  by_cases hc : 65 ≤ c ∧ c ≤ 90
  · rw [pyLower, if_pos hc]
    simp only [isPunct, decide_eq_false_iff_not]
    omega
  · rw [pyLower, if_neg hc]
    exact h

/-- Right-stripping only keeps characters of the input. -/
theorem mem_rstrip : ∀ (l : Str) (c : Nat), c ∈ rstrip l → c ∈ l
  | [], _, h => absurd h (List.not_mem_nil _)
  | d :: rest, c, h => by
    simp only [rstrip] at h
    split at h
    · exact absurd h (List.not_mem_nil _)
    · rcases List.mem_cons.mp h with h1 | h1
      · exact h1 ▸ List.mem_cons_self _ _
      · exact List.mem_cons_of_mem _ (mem_rstrip rest c h1)

/-- Stripping only keeps characters of the input. -/
theorem mem_pyStrip (l : Str) (c : Nat) (h : c ∈ pyStrip l) : c ∈ l :=
  (List.dropWhile_sublist _).subset (mem_rstrip _ c h)

/-- Collapsing only keeps input characters, apart from the spaces it
inserts. -/
theorem mem_collapseAux : ∀ (b : Bool) (l : Str) (c : Nat),
    c ∈ collapseAux b l → c ∈ l ∨ c = 32
  | _, [], _, h => absurd h (List.not_mem_nil _)
  | b, d :: rest, c, h => by
    simp only [collapseAux] at h
    split at h
    · split at h
      · rcases mem_collapseAux true rest c h with h1 | h1
        · exact Or.inl (List.mem_cons_of_mem _ h1)
        · exact Or.inr h1
      · rcases List.mem_cons.mp h with h1 | h1
        · exact Or.inr h1
        · rcases mem_collapseAux true rest c h1 with h2 | h2
          · exact Or.inl (List.mem_cons_of_mem _ h2)
          · exact Or.inr h2
    · rcases List.mem_cons.mp h with h1 | h1
      · exact Or.inl (h1 ▸ List.mem_cons_self _ _)
      · rcases mem_collapseAux false rest c h1 with h2 | h2
        · exact Or.inl (List.mem_cons_of_mem _ h2)
        · exact Or.inr h2

/-- Dropping leading whitespace leaves no leading whitespace. -/
theorem startsSpace_dropWhile : ∀ l : Str, startsSpace (l.dropWhile isSpace) = false
  | [] => rfl
  | d :: rest => by
    rw [List.dropWhile_cons]
    split
    · exact startsSpace_dropWhile rest
    · rename_i hd
      simpa [startsSpace] using hd

/-- Right-stripping preserves the absence of leading whitespace. -/
theorem startsSpace_rstrip (l : Str) (h : startsSpace l = false) :
    startsSpace (rstrip l) = false := by
  cases l with
  | nil => rfl
  | cons d rest =>
    simp only [rstrip]
    split
    · rfl
    · simpa [startsSpace] using h

/-- Right-stripping leaves no trailing whitespace. -/
theorem noTrail_rstrip : ∀ l : Str, noTrail (rstrip l) = true
  | [] => rfl
  | d :: rest => by
    simp only [rstrip]
    split
    · rfl
    · rename_i hcond
      cases hr : rstrip rest with
      | nil =>
        have hd : isSpace d = false := by
          by_contra hx
          exact hcond ⟨hr, by simpa using hx⟩
        simp [noTrail, hd]
      | cons e t =>
        have := noTrail_rstrip rest
        rw [hr] at this
        simpa [noTrail] using this

/-- A string with no trailing whitespace is a fixed point of `rstrip`. -/
theorem rstrip_of_noTrail : ∀ l : Str, noTrail l = true → rstrip l = l
  | [], _ => rfl
  | [d], h => by
    have hd : isSpace d = false := by simpa [noTrail] using h
    simp [rstrip, hd]
  | d :: e :: t, h => by
    have h' : noTrail (e :: t) = true := by simpa [noTrail] using h
    have ih := rstrip_of_noTrail (e :: t) h'
    simp only [rstrip]
    rw [show (if rstrip t = [] ∧ isSpace e = true then [] else e :: rstrip t) = e :: t from ih]
    simp

/-- A string with no leading whitespace is a fixed point of the
leading-whitespace drop. -/
theorem dropWhile_of_noStart (l : Str) (h : startsSpace l = false) :
    l.dropWhile isSpace = l := by
  cases l with
  | nil => rfl
  | cons d rest =>
    have hd : isSpace d = false := by simpa [startsSpace] using h
    rw [List.dropWhile_cons, if_neg (by simp [hd])]

/-- A string with neither leading nor trailing whitespace is a fixed
point of `strip`. -/
theorem pyStrip_of_fixed (l : Str) (h1 : startsSpace l = false) (h2 : noTrail l = true) :
    pyStrip l = l := by
  rw [pyStrip, dropWhile_of_noStart l h1, rstrip_of_noTrail l h2]

/-- Stripping leaves no leading whitespace. -/
theorem startsSpace_pyStrip (l : Str) : startsSpace (pyStrip l) = false :=
  startsSpace_rstrip _ (startsSpace_dropWhile l)

/-- Stripping leaves no trailing whitespace. -/
theorem noTrail_pyStrip (l : Str) : noTrail (pyStrip l) = true :=
  noTrail_rstrip _

/-- Lower-casing preserves the leading-whitespace test. -/
theorem startsSpace_map (l : Str) : startsSpace (l.map pyLower) = startsSpace l := by
  cases l with
  | nil => rfl
  | cons d rest => simp [startsSpace, isSpace_pyLower]

/-- Lower-casing preserves the trailing-whitespace test. -/
theorem noTrail_map : ∀ l : Str, noTrail (l.map pyLower) = noTrail l
  | [] => rfl
  | [d] => by simp [noTrail, isSpace_pyLower]
  | d :: e :: t => by
    have ih := noTrail_map (e :: t)
    simpa [noTrail] using ih

/-- Lower-casing preserves the adjacent-whitespace test. -/
theorem noDouble_map : ∀ l : Str, noDouble (l.map pyLower) = noDouble l
  | [] => rfl
  | [_] => rfl
  | d :: e :: t => by
    have ih := noDouble_map (e :: t)
    simp only [List.map_cons] at ih ⊢
    rw [noDouble, noDouble, ih, isSpace_pyLower, isSpace_pyLower]

/-- The adjacent-whitespace test restricts to tails. -/
theorem noDouble_tail : ∀ (c : Nat) (rest : Str), noDouble (c :: rest) = true →
    noDouble rest = true
  | _, [], _ => rfl
  | c, e :: t, h => by
    rw [noDouble] at h
    simp only [Bool.and_eq_true] at h
    exact h.2

/-- Building block: a head may be added when it cannot create an
adjacent whitespace pair. -/
theorem noDouble_cons_of (c : Nat) (t : Str) (h1 : noDouble t = true)
    (h2 : isSpace c = true → startsSpace t = false) : noDouble (c :: t) = true := by
  cases t with
  | nil => rfl
  | cons e r =>
    rw [noDouble]
    simp only [Bool.and_eq_true]
    refine ⟨?_, h1⟩
    by_cases hc : isSpace c = true
    · have he : isSpace e = false := by simpa [startsSpace] using h2 hc
      simp [hc, he]
    · simp [by simpa using hc]

/-- A whitespace head of a double-free string caps a run: the tail
cannot start with whitespace. -/
theorem noDouble_head (c : Nat) (t : Str) (h : noDouble (c :: t) = true)
    (hc : isSpace c = true) : startsSpace t = false := by
  cases t with
  | nil => rfl
  | cons e r =>
    rw [noDouble] at h
    simp only [Bool.and_eq_true] at h
    have := h.1
    simp [hc] at this
    simpa [startsSpace] using this

/-- Dropping leading whitespace preserves the adjacent-whitespace test. -/
theorem noDouble_dropWhile : ∀ l : Str, noDouble l = true →
    noDouble (l.dropWhile isSpace) = true
  | [], h => h
  | d :: rest, h => by
    rw [List.dropWhile_cons]
    split
    · exact noDouble_dropWhile rest (noDouble_tail d rest h)
    · exact h

/-- Right-stripping preserves the adjacent-whitespace test. -/
theorem noDouble_rstrip : ∀ l : Str, noDouble l = true → noDouble (rstrip l) = true
  | [], _ => rfl
  | d :: rest, h => by
    simp only [rstrip]
    split
    · rfl
    · refine noDouble_cons_of d _ (noDouble_rstrip rest (noDouble_tail d rest h)) ?_
      intro hsd
      exact startsSpace_rstrip rest (noDouble_head d rest h hsd)

/-- Stripping preserves the adjacent-whitespace test. -/
theorem noDouble_pyStrip (l : Str) (h : noDouble l = true) : noDouble (pyStrip l) = true :=
  noDouble_rstrip _ (noDouble_dropWhile l h)

/-- Every whitespace character the collapse emits is a plain space. -/
theorem collapse_blank : ∀ (b : Bool) (l : Str) (c : Nat),
    c ∈ collapseAux b l → isSpace c = true → c = 32
  | _, [], _, h, _ => absurd h (List.not_mem_nil _)
  | b, d :: rest, c, h, hsp => by
    simp only [collapseAux] at h
    split at h
    · split at h
      · exact collapse_blank true rest c h hsp
      · rcases List.mem_cons.mp h with h1 | h1
        · exact h1
        · exact collapse_blank true rest c h1 hsp
    · rcases List.mem_cons.mp h with h1 | h1
      · rename_i hd
        subst h1
        exact absurd hsp (by simpa using hd)
      · exact collapse_blank false rest c h1 hsp

/-- After the collapse has just replaced a run, the output cannot start
with whitespace. -/
theorem collapse_startsSpace_true : ∀ l : Str, startsSpace (collapseAux true l) = false
  | [] => rfl
  | d :: rest => by
    simp only [collapseAux]
    split
    · exact collapse_startsSpace_true rest
    · rename_i hd
      simpa [startsSpace] using hd

/-- The collapse emits no adjacent whitespace pair. -/
theorem collapse_noDouble : ∀ (b : Bool) (l : Str), noDouble (collapseAux b l) = true
  | _, [] => rfl
  | true, d :: rest => by
    simp only [collapseAux, if_true]
    split
    · exact collapse_noDouble true rest
    · rename_i hd
      refine noDouble_cons_of d _ (collapse_noDouble false rest) ?_
      intro hsd
      exact absurd hsd (by simpa using hd)
  | false, d :: rest => by
    simp only [collapseAux]
    split
    · refine noDouble_cons_of 32 _ (collapse_noDouble true rest) ?_
      intro _
      exact collapse_startsSpace_true rest
    · rename_i hd
      refine noDouble_cons_of d _ (collapse_noDouble false rest) ?_
      intro hsd
      exact absurd hsd (by simpa using hd)

/-- A string whose whitespace is all plain spaces, with no adjacent
pair (and no leading space when the flag says a run just ended), is a
fixed point of the collapse. -/
theorem collapse_fixed : ∀ (b : Bool) (l : Str),
    (∀ c ∈ l, isSpace c = true → c = 32) → noDouble l = true →
    (b = true → startsSpace l = false) → collapseAux b l = l
  | _, [], _, _, _ => rfl
  | true, d :: rest, hb, hnd, hbs => by
    have hst := hbs rfl
    by_cases hd : isSpace d = true
    · simp [startsSpace, hd] at hst
    · have hrest : collapseAux false rest = rest :=
        collapse_fixed false rest (fun c hc => hb c (List.mem_cons_of_mem _ hc))
          (noDouble_tail d rest hnd) (fun hx => absurd hx (by decide))
      simp only [collapseAux, if_true]
      rw [if_neg (by simpa using hd), hrest]
  | false, d :: rest, hb, hnd, _ => by
    by_cases hd : isSpace d = true
    · have hd32 : d = 32 := hb d (List.mem_cons_self _ _) hd
      have hrest : collapseAux true rest = rest :=
        collapse_fixed true rest (fun c hc => hb c (List.mem_cons_of_mem _ hc))
          (noDouble_tail d rest hnd) (fun _ => noDouble_head d rest hnd hd)
      simp only [collapseAux]
      rw [if_pos hd]
      simp only [Bool.false_eq_true, if_false]
      rw [hrest, hd32]
    · have hrest : collapseAux false rest = rest :=
        collapse_fixed false rest (fun c hc => hb c (List.mem_cons_of_mem _ hc))
          (noDouble_tail d rest hnd) (fun hx => absurd hx (by decide))
      simp only [collapseAux]
      rw [if_neg (by simpa using hd), hrest]

/-- A punctuation-free string is a fixed point of punctuation removal. -/
theorem depunct_of_noPunct : ∀ l : Str, (∀ c ∈ l, isPunct c = false) → depunct l = l
  | [], _ => rfl
  | d :: rest, h => by
    rw [depunct, List.filter_cons]
    rw [if_pos (by simp [h d (List.mem_cons_self _ _)])]
    have ih := depunct_of_noPunct rest (fun c hc => h c (List.mem_cons_of_mem _ hc))
    rw [depunct] at ih
    rw [ih]

/-- Characters surviving punctuation removal are not punctuation. -/
theorem mem_depunct_noPunct (l : Str) (c : Nat) (h : c ∈ depunct l) : isPunct c = false := by
  have := (List.mem_filter.mp h).2
  simpa using this

/-- Lower-casing a string twice equals lower-casing it once. -/
theorem pyLowerStr_idem : ∀ l : Str, pyLowerStr (pyLowerStr l) = pyLowerStr l
  | [] => rfl
  | d :: rest => by
    have ih := pyLowerStr_idem rest
    simp only [pyLowerStr, List.map_cons] at ih ⊢
    rw [pyLower_idem]
    exact congrArg _ ih

/-- The normalized form, unfolded on nonempty input. -/
theorem normalize_name_eq (l : Str) (hl : l ≠ []) :
    normalize_name l = pyLowerStr (pyStrip (collapse (depunct (stripTitle (pyStrip l))))) := by
  rw [normalize_name, if_neg hl]

/-- A normalized name has no leading whitespace. -/
theorem normalize_startsSpace (l : Str) : startsSpace (normalize_name l) = false := by
  by_cases hl : l = []
  · subst hl
    rfl
  · rw [normalize_name_eq l hl, pyLowerStr, startsSpace_map]
    exact startsSpace_pyStrip _

/-- A normalized name has no trailing whitespace. -/
theorem normalize_noTrail (l : Str) : noTrail (normalize_name l) = true := by
  by_cases hl : l = []
  · subst hl
    rfl
  · rw [normalize_name_eq l hl, pyLowerStr, noTrail_map]
    exact noTrail_pyStrip _

/-- A normalized name has no adjacent whitespace pair. -/
theorem normalize_noDouble (l : Str) : noDouble (normalize_name l) = true := by
  by_cases hl : l = []
  · subst hl
    rfl
  · rw [normalize_name_eq l hl, pyLowerStr, noDouble_map]
    exact noDouble_pyStrip _ (collapse_noDouble false _)

/-- Every whitespace character of a normalized name is a plain space. -/
theorem normalize_blank (l : Str) : ∀ c ∈ normalize_name l, isSpace c = true → c = 32 := by
  by_cases hl : l = []
  · subst hl
    intro c hc
    exact absurd hc (List.not_mem_nil _)
  · rw [normalize_name_eq l hl]
    intro c hc hsp
    obtain ⟨d, hd, hcd⟩ := List.mem_map.mp hc
    have hd2 := mem_pyStrip _ d hd
    have hsd : isSpace d = true := by
      rw [← hcd, isSpace_pyLower] at hsp
      exact hsp
    have hd32 : d = 32 := collapse_blank false _ d hd2 hsd
    rw [← hcd, hd32]
    decide

/-- A normalized name contains no punctuation. -/
theorem normalize_noPunct (l : Str) : ∀ c ∈ normalize_name l, isPunct c = false := by
  by_cases hl : l = []
  · subst hl
    intro c hc
    exact absurd hc (List.not_mem_nil _)
  · rw [normalize_name_eq l hl]
    intro c hc
    obtain ⟨d, hd, hcd⟩ := List.mem_map.mp hc
    have hd2 := mem_pyStrip _ d hd
    have hdp : isPunct d = false := by
      rcases mem_collapseAux false _ d hd2 with h1 | h1
      · exact mem_depunct_noPunct _ d h1
      · subst h1
        decide
    rw [← hcd]
    exact isPunct_pyLower d hdp

/-- A normalized name is already lower-case. -/
theorem normalize_lower_fixed (l : Str) : pyLowerStr (normalize_name l) = normalize_name l := by
  by_cases hl : l = []
  · subst hl
    rfl
  · rw [normalize_name_eq l hl]
    exact pyLowerStr_idem _

/-- Claim C7 (counterexample): normalization is not idempotent.  The
anchored honorific substitution removes only one leading title per
pass, so `"dr dr smith"` normalizes to `"dr smith"`, which a second
normalization strips again to `"smith"`. -/
theorem C7_counterexample :
    normalize_name (normalize_name (chars (r"dr dr smith"))) ≠
      normalize_name (chars (r"dr dr smith")) ∧
    normalize_name (chars (r"dr dr smith")) = chars (r"dr smith") ∧
    normalize_name (chars (r"dr smith")) = chars (r"smith") := by
  refine ⟨by decide, by decide, by decide⟩

/-- Claim C7 (amended): normalization is idempotent on every input
whose normalized form does not itself begin with an honorific prefix
(`dr`/`mr`/`mrs`/`ms`, optional dot, then whitespace) — equivalently,
whenever the title-stripping pass is a no-op on the normalized form.
Inputs with stacked honorifics lose one more title on each pass. -/
theorem C7_normalize_idempotent_unless_title (l : Str)
    (h : stripTitle (normalize_name l) = normalize_name l) :
    normalize_name (normalize_name l) = normalize_name l := by
  by_cases h0 : normalize_name l = []
  · rw [h0]
    rfl
  · rw [normalize_name_eq (normalize_name l) h0]
    rw [pyStrip_of_fixed (normalize_name l) (normalize_startsSpace l) (normalize_noTrail l)]
    rw [h]
    rw [depunct_of_noPunct (normalize_name l) (normalize_noPunct l)]
    rw [collapse, collapse_fixed false (normalize_name l) (normalize_blank l)
      (normalize_noDouble l) (fun hx => absurd hx (by decide))]
    rw [pyStrip_of_fixed (normalize_name l) (normalize_startsSpace l) (normalize_noTrail l)]
    exact normalize_lower_fixed l

/-- Claim C7 (witness): the amended theorem applied to a name whose
normalized form carries no honorific prefix. -/
theorem C7_witness :
    stripTitle (normalize_name (chars (r"Dr. John Smith"))) =
      normalize_name (chars (r"Dr. John Smith")) ∧
    normalize_name (normalize_name (chars (r"Dr. John Smith"))) =
      normalize_name (chars (r"Dr. John Smith")) :=
  ⟨by decide, C7_normalize_idempotent_unless_title (chars (r"Dr. John Smith")) (by decide)⟩
